import Mathlib

/-!
Shallow embedding of the core logic of the `explain` CLI
(`src/explain-files.mjs`): token-budget derivation from the model
identifier, selection validation, prompt assembly, directory enumeration
with the junk-directory exclusion list, the file filters, option merging,
and the streamed-completion chunk handler.

JavaScript strings are modelled as `List Char`; the JavaScript numbers the
claims touch are modelled as `ℕ` (token counts) or `ℚ` (the sampling
options).  Terminal colouring (`chalk`) wraps a message in ANSI escape
codes without changing the message text; it is modelled as the identity on
the text, which is all the claims inspect.
-/

namespace Explain

/-- Characters removed by JavaScript `String.prototype.trim` (the ASCII
whitespace subset, which covers every character appearing at the edges of
the program's templates). -/
def jsWhitespace (c : Char) : Bool :=
  c = ' ' || c = '\t' || c = '\n' || c = '\r' || c = '\x0B' || c = '\x0C'

/-- JavaScript `s.trimStart()`. -/
def jsTrimStart (l : List Char) : List Char := l.dropWhile jsWhitespace

/-- JavaScript `s.trimEnd()`. -/
def jsTrimEnd (l : List Char) : List Char := (l.reverse.dropWhile jsWhitespace).reverse

/-- JavaScript `s.trim()`. -/
def jsTrim (l : List Char) : List Char := jsTrimEnd (jsTrimStart l)

/-- Does the JavaScript regex `/\d+k/` match at the start of `l`?
`\d+` is greedy; backtracking it can never rescue a failed attempt, because
any shorter digit run is followed by another digit, never by `k`.  So a
match begins here iff the maximal digit run from here is non-empty and is
immediately followed by `k`. -/
def matchAtHead (l : List Char) : Bool :=
  !(l.takeWhile Char.isDigit).isEmpty && (l.dropWhile Char.isDigit).head? == some 'k'

/-- Line 220 of `explain-files.mjs`: `answers.model.match(/\d+k/)`.
Returns the leftmost match of one-or-more digits followed by `k`, as the
matched substring (`none` when the regex does not match). -/
def matchDigitsK : List Char → Option (List Char)
  | [] => none
  | c :: rest =>
    if matchAtHead (c :: rest) then some ((c :: rest).takeWhile Char.isDigit ++ ['k'])
    else matchDigitsK rest

/-- Whether the regex `/\d+k/` matches at offset `i` of `l`. -/
def hasMatchAt (l : List Char) (i : Nat) : Bool := matchAtHead (l.drop i)

/-- Decimal value of a list of digit characters. -/
def natOfDigits (l : List Char) : Nat :=
  l.foldl (fun a c => a * 10 + (c.toNat - 48)) 0

/-- JavaScript `parseInt` on a string that starts with a digit: it parses
the longest leading digit run (the regex match always starts with a digit,
so the sign/whitespace/NaN cases of `parseInt` never arise). -/
def parseIntLeading (l : List Char) : Nat := natOfDigits (l.takeWhile Char.isDigit)

/-- Lines 219-221 of `explain-files.mjs`:
`const size = answers.model.match(/\d+k/);`
`const MAX_TOKEN = size ? parseInt(size[0]) * 1000 : 4000;` -/
def MAX_TOKEN (model : List Char) : Nat :=
  match matchDigitsK model with
  | some s => parseIntLeading s * 1000
  | none => 4000

/-- Lines 224-226 of `explain-files.mjs`: the message of the `Error` thrown
when the selection is over budget. -/
def errorMessage (tokenCount limit : Nat) : List Char :=
  "You selected files with a sum of ".data ++ (Nat.repr tokenCount).data ++
    " tokens. The maximum is ".data ++ (Nat.repr limit).data ++
    ". Please select fewer files.".data

/-- Lines 200-230 of `explain-files.mjs`, the `validate` callback of the
file checkbox question.  The per-file tokenizer (`@dqbd/tiktoken`) is an
external collaborator, so the estimated token count of each selected file
is taken as an input; `validate` sums them (`tokenCount += count`) and
compares the sum against `MAX_TOKEN`, throwing (modelled as
`Except.error`) when the sum is strictly greater, returning `true`
otherwise. -/
def validate (fileTokens : List Nat) (model : List Char) :
    Except (List Char) Bool :=
  let tokenCount := fileTokens.foldl (· + ·) 0
  if tokenCount > MAX_TOKEN model then
    Except.error (errorMessage tokenCount (MAX_TOKEN model))
  else
    Except.ok true

/-- The file-selection criteria: `options.filter` (substring filters) and
`options.ext` (extension filters) from lines 116-117.  `none` models a
flag never supplied on the command line (`undefined` in `args`); `some l`
models a supplied array of strings. -/
structure FilterCriteria where
  filter : Option (List (List Char))
  ext : Option (List (List Char))

/-- Line 180: `if (options.filter && !options.filter.some((filter) => f.includes(filter))) continue;`.
A JavaScript array is truthy even when empty, so a present list is always
consulted (and an empty present list matches nothing); only an absent
(`undefined`) criterion skips the check.  A path is kept when the skip
condition is false. -/
def passesSubstr (filter : Option (List (List Char))) (f : List Char) : Bool :=
  match filter with
  | none => true
  | some subs => subs.any (fun sub => decide (sub <:+: f))

/-- Line 185: `if (options.ext && !options.ext.some((extension) => f.endsWith(extension))) continue;`. -/
def passesExt (ext : Option (List (List Char))) (f : List Char) : Bool :=
  match ext with
  | none => true
  | some exts => exts.any (fun e => e.isSuffixOf f)

/-- Lines 178-190: a path survives both `continue` checks of the `choices`
loop iff it passes the substring filter and the extension filter. -/
def choicesFilter (crit : FilterCriteria) (f : List Char) : Bool :=
  passesSubstr crit.filter f && passesExt crit.ext f

/-- JavaScript `supplied || dflt` on a nullable number: `undefined` and the
number `0` are falsy, so either selects the default. -/
def jsOrNum (supplied : Option ℚ) (dflt : ℚ) : ℚ :=
  match supplied with
  | none => dflt
  | some x => if x = 0 then dflt else x

/-- Line 120 of `explain-files.mjs`: `temperature: args['--temperature'] || 0.8`. -/
def optionsTemperature (argTemp : Option ℚ) : ℚ := jsOrNum argTemp 0.8

/-- Line 122 of `explain-files.mjs`: `maxTokens: args['--max-tokens'] || 400`. -/
def optionsMaxTokens (argMax : Option ℚ) : ℚ := jsOrNum argMax 400

/-- A chat message role; the program only ever produces `system` and
`user` messages. -/
inductive Role where
  | system
  | user
deriving DecidableEq

/-- A chat message, `{ role, content }`. -/
structure Message where
  role : Role
  content : List Char
deriving DecidableEq

/-- The system-message template literal of lines 313-315, with its
literal leading newline and indentation, before `.trim()`. -/
def systemTemplate : List Char :=
  "\n        You are an experienced software engineer with computer science background. You are great at explaining code to others.\n      ".data

/-- Lines 303-308 of `explain-files.mjs`: `fileContentToMessage`, building
the user message for one selected file from the template
`Filename: ${relative}\n\n[fence]\n${content}\n[fence]\n` (where `[fence]`
is three backticks), then `.trim()`. -/
def fileContentToMessage (relative content : List Char) : Message :=
  { role := Role.user,
    content := jsTrim ("Filename: ".data ++ relative ++ "\n\n```\n".data ++
      content ++ "\n```\n".data) }

/-- Lines 310-322 of `explain-files.mjs`: the assembled `messages` array —
the trimmed system template, the trimmed prompt as a user message, then
one user message per selected file, in selection order. -/
def messages (prompt : List Char) (files : List (List Char × List Char)) :
    List Message :=
  { role := Role.system, content := jsTrim systemTemplate } ::
  { role := Role.user, content := jsTrim prompt } ::
  files.map (fun fc => fileContentToMessage fc.1 fc.2)

/-- Line 130 of `explain-files.mjs`: `COMMON_JUNK_DIRS`. -/
def COMMON_JUNK_DIRS : List (List Char) :=
  ["node_modules".data, ".git".data, ".next".data, ".vscode".data,
    ".idea".data, ".github".data, "dist".data, "build".data]

/-- A directory tree as seen through `fs.readdir(dir, { withFileTypes: true })`:
each entry is a file or a directory with its own entries. -/
inductive FsEntry where
  | file (name : List Char)
  | dir (name : List Char) (children : List FsEntry)

mutual

/-- The paths that `getFiles` (lines 132-144) yields for one directory
entry, as lists of name segments relative to the traversal root.  The
junk-name check (`if (COMMON_JUNK_DIRS.includes(dirent.name)) continue;`)
comes before the `dirent.isDirectory()` test, exactly as in the source, so
it applies to files and directories alike. -/
def getFilesEntry : FsEntry → List (List (List Char))
  | FsEntry.file n => if n ∈ COMMON_JUNK_DIRS then [] else [[n]]
  | FsEntry.dir n children =>
    if n ∈ COMMON_JUNK_DIRS then []
    else (getFiles children).map (fun p => n :: p)

/-- The full yield of the `for (const dirent of dirents)` loop of
`getFiles`, in order. -/
def getFiles : List FsEntry → List (List (List Char))
  | [] => []
  | e :: rest => getFilesEntry e ++ getFiles rest

end

mutual

/-- All file paths of one entry (no exclusions): the claim-side notion of
"this path denotes a file of the tree, not a directory". -/
def filePathsEntry : FsEntry → List (List (List Char))
  | FsEntry.file n => [[n]]
  | FsEntry.dir n children => (filePaths children).map (fun p => n :: p)

/-- All file paths under a list of entries (no exclusions). -/
def filePaths : List FsEntry → List (List (List Char))
  | [] => []
  | e :: rest => filePathsEntry e ++ filePaths rest

end

/-- Terminal styling: `chalk` wraps its argument in ANSI escape codes and
leaves the message text itself unchanged; the claims only inspect the
text, so the wrapper is modelled as the identity on it. -/
def chalkText (s : List Char) : List Char := s

/-- One parsed streamed chunk (line 346: `JSON.parse(chunk)`): either an
error payload (`json.error`, carrying `error.message`) or a data chunk
with the two possible text shapes `choices[0].delta?.content` and legacy
`choices[0].text`, plus the nullable `choices[0].finish_reason`. -/
inductive Chunk where
  | err (message : List Char)
  | data (deltaContent : Option (List Char)) (text : Option (List Char))
      (finishReason : Option (List Char))

/-- The observable state of the process while streaming: the ordered list
of writes to standard output (`console.log(s)` writes `s` plus a newline;
`process.stdout.write(s)` writes `s` verbatim), and the exit code once
`process.exit` has run. -/
structure ProcState where
  out : List (List Char)
  exited : Option Nat
deriving DecidableEq

/-- `console.log(s)` as a single stdout write. -/
def consoleLog (s : List Char) : List Char := s ++ ['\n']

/-- JavaScript truthiness of a nullable string (`if (finishReason)`):
`null`/`undefined` and the empty string are falsy. -/
def jsTruthyStr : Option (List Char) → Bool
  | none => false
  | some s => !s.isEmpty

/-- Lines 345-369 of `explain-files.mjs`: the `AIStream` callback, applied
to one chunk.  After `process.exit` nothing further runs, so a chunk
arriving once `exited` is set changes nothing.  Otherwise: an error chunk
logs a blank line, the `OpenAI error:` header, a blank line and the error
message, then exits with code 1; a data chunk writes
`delta?.content ?? text ?? ''` to stdout, and when the finish reason is
truthy additionally warns (when the reason is not `stop`) and writes the
trailing newline. -/
def processChunk (st : ProcState) (c : Chunk) : ProcState :=
  match st.exited with
  | some _ => st
  | none =>
    match c with
    | Chunk.err m =>
      { out := st.out ++ [consoleLog [], consoleLog (chalkText ("OpenAI error:".data)),
          consoleLog [], consoleLog m],
        exited := some 1 }
    | Chunk.data delta text finish =>
      let t := delta.getD (text.getD [])
      let afterText := st.out ++ [t]
      if jsTruthyStr finish then
        let r := finish.getD []
        let afterWarn :=
          if r = "stop".data then afterText
          else afterText ++ [consoleLog [],
            consoleLog (chalkText ("OpenAI stopped early, reason: ".data ++ r))]
        { out := afterWarn ++ [['\n']], exited := none }
      else
        { out := afterText, exited := none }

/-- The fresh process state before the first chunk arrives. -/
def initState : ProcState := { out := [], exited := none }

/-- Feeding a whole stream of chunks, in arrival order, through the
`AIStream` callback. -/
def runStream (chunks : List Chunk) : ProcState :=
  chunks.foldl processChunk initState

/-- The process exit code: the `process.exit` argument if it ran, else 0
for a normal end of the program. -/
def exitCode (st : ProcState) : Nat := st.exited.getD 0

/-- Whether a chunk is an error chunk. -/
def isErr : Chunk → Bool
  | Chunk.err _ => true
  | Chunk.data _ _ _ => false

/-- The spec's synthetic example stream:
`[{delta:"Hello"}, {delta:" world"}, {finish_reason:"stop"}]`. -/
def helloStream : List Chunk :=
  [Chunk.data (some ("Hello".data)) none none,
   Chunk.data (some (" world".data)) none none,
   Chunk.data none none (some ("stop".data))]

lemma takeWhile_digits_append (d post : List Char) (hd : d.all Char.isDigit = true) :
    (d ++ 'k' :: post).takeWhile Char.isDigit = d ∧
    (d ++ 'k' :: post).dropWhile Char.isDigit = 'k' :: post := by
  induction d with
  | nil =>
    constructor
    · simp [List.takeWhile_cons, (by decide : Char.isDigit 'k' = false)]
    · simp [List.dropWhile_cons, (by decide : Char.isDigit 'k' = false)]
  | cons c d ih =>
    simp only [List.all_cons, Bool.and_eq_true] at hd
    obtain ⟨hc, hd⟩ := hd
    obtain ⟨h1, h2⟩ := ih hd
    constructor
    · simp [List.takeWhile_cons, hc, h1]
    · simp [List.dropWhile_cons, hc, h2]

lemma matchAtHead_of_digits (d post : List Char) (hne : d ≠ [])
    (hd : d.all Char.isDigit = true) :
    matchAtHead (d ++ 'k' :: post) = true := by
  obtain ⟨h1, h2⟩ := takeWhile_digits_append d post hd
  simp [matchAtHead, h1, h2, List.isEmpty_iff, hne]

lemma hasMatchAt_succ (c : Char) (l : List Char) (i : Nat) :
    hasMatchAt (c :: l) (i + 1) = hasMatchAt l i := by
  simp [hasMatchAt]

/-- If the regex matches nowhere, `match` returns `null`. -/
lemma matchDigitsK_eq_none (m : List Char) (h : ∀ i, hasMatchAt m i = false) :
    matchDigitsK m = none := by
  induction m with
  | nil => rfl
  | cons c rest ih =>
    have h0 : matchAtHead (c :: rest) = false := by
      have := h 0
      simpa [hasMatchAt] using this
    rw [matchDigitsK, h0]
    simp only [Bool.false_eq_true, if_false]
    exact ih fun i => by
      have := h (i + 1)
      rwa [hasMatchAt_succ] at this

/-- The leftmost match: if `m` decomposes as `pre ++ d ++ 'k' :: post` with
`d` a non-empty digit run and no match starting before `pre.length`, then
`match(/\d+k/)` returns exactly `d ++ "k"`. -/
lemma matchDigitsK_of_first (pre : List Char) :
    ∀ (m d post : List Char), m = pre ++ d ++ 'k' :: post → d ≠ [] →
      d.all Char.isDigit = true →
      (∀ i, i < pre.length → hasMatchAt m i = false) →
      matchDigitsK m = some (d ++ ['k']) := by
  induction pre with
  | nil =>
    intro m d post hm hne hd _
    simp only [List.nil_append] at hm
    subst hm
    obtain ⟨c, d', rfl⟩ : ∃ c d', d = c :: d' := by
      cases d with
      | nil => exact absurd rfl hne
      | cons c d' => exact ⟨c, d', rfl⟩
    rw [List.cons_append, matchDigitsK]
    rw [← List.cons_append, matchAtHead_of_digits _ _ hne hd]
    have h1 := (takeWhile_digits_append (c :: d') post hd).1
    rw [List.cons_append] at h1
    simp [h1]
  | cons p pre ih =>
    intro m d post hm hne hd hmin
    have h0 : matchAtHead m = false := by
      have := hmin 0 (by simp)
      simpa [hasMatchAt] using this
    subst hm
    rw [List.cons_append, List.cons_append, matchDigitsK]
    rw [← List.cons_append, ← List.cons_append, h0]
    simp only [Bool.false_eq_true, if_false]
    exact ih (pre ++ d ++ 'k' :: post) d post rfl hne hd fun i hi => by
      have := hmin (i + 1) (by simpa using Nat.succ_lt_succ hi)
      rwa [List.cons_append, List.cons_append, hasMatchAt_succ] at this

/-- A position where the regex matches yields a digits-then-`k`
decomposition of the string. -/
lemma exists_decomp_of_hasMatchAt (m : List Char) (i : Nat)
    (h : hasMatchAt m i = true) :
    ∃ pre d post, m = pre ++ d ++ 'k' :: post ∧ d ≠ [] ∧
      d.all Char.isDigit = true := by
  unfold hasMatchAt matchAtHead at h
  simp only [Bool.and_eq_true, Bool.not_eq_true', beq_iff_eq] at h
  obtain ⟨hne, hk⟩ := h
  have hne' : (m.drop i).takeWhile Char.isDigit ≠ [] := by
    intro hcon
    rw [hcon] at hne
    simp at hne
  obtain ⟨tl, htl⟩ : ∃ tl, (m.drop i).dropWhile Char.isDigit = 'k' :: tl := by
    cases hdw : (m.drop i).dropWhile Char.isDigit with
    | nil => rw [hdw] at hk; simp at hk
    | cons a tl =>
      rw [hdw] at hk
      simp only [List.head?_cons, Option.some.injEq] at hk
      exact ⟨tl, by rw [hk]⟩
  refine ⟨m.take i, (m.drop i).takeWhile Char.isDigit, tl, ?_, hne', ?_⟩
  · conv_lhs => rw [← List.take_append_drop i m]
    rw [List.append_assoc, ← htl, List.takeWhile_append_dropWhile]
  · rw [List.all_eq_true]
    intro c hc
    simpa using List.mem_takeWhile_imp hc

/-- JavaScript `parseInt` on `d ++ "k"` reads exactly the digits `d`. -/
lemma parseIntLeading_append_k (d : List Char) (hd : d.all Char.isDigit = true) :
    parseIntLeading (d ++ ['k']) = natOfDigits d := by
  unfold parseIntLeading
  rw [(takeWhile_digits_append d [] hd).1]

/-- Claim C1: the Selection Validator's token budget is `n * 1000` when the
model identifier contains a run of one-or-more digits immediately followed
by `'k'` (`n` being the digits of the first such match), and `4000` when it
contains no such substring.  The "first match" hypothesis is phrased as:
the identifier decomposes around a digit run followed by `'k'`, and the
regex `/\d+k/` matches at no earlier offset. -/
theorem C1_token_budget (m : List Char) :
    ((¬ ∃ pre d post, m = pre ++ d ++ 'k' :: post ∧ d ≠ [] ∧
        d.all Char.isDigit = true) → MAX_TOKEN m = 4000) ∧
    (∀ pre d post, m = pre ++ d ++ 'k' :: post → d ≠ [] →
      d.all Char.isDigit = true →
      (∀ i, i < pre.length → hasMatchAt m i = false) →
      MAX_TOKEN m = natOfDigits d * 1000) := by
  constructor
  · intro hno
    have hall : ∀ i, hasMatchAt m i = false := by
      intro i
      by_contra hcon
      rw [Bool.not_eq_false] at hcon
      exact hno (exists_decomp_of_hasMatchAt m i hcon)
    unfold MAX_TOKEN
    rw [matchDigitsK_eq_none m hall]
  · intro pre d post hm hne hd hmin
    unfold MAX_TOKEN
    rw [matchDigitsK_of_first pre m d post hm hne hd hmin]
    show parseIntLeading (d ++ ['k']) * 1000 = natOfDigits d * 1000
    rw [parseIntLeading_append_k d hd]

/-- Witness for C1 at the spec's own example `"gpt-4-32k"`. -/
theorem C1_token_budget_witness : MAX_TOKEN ("gpt-4-32k".data) = 32000 := by
  have h := (C1_token_budget ("gpt-4-32k".data)).2 ("gpt-4-".data) ("32".data) []
    (by decide) (by decide) (by decide) (by decide)
  rw [h]
  decide

lemma validate_spec (fileTokens : List Nat) (model : List Char) :
    validate fileTokens model =
      if fileTokens.foldl (· + ·) 0 > MAX_TOKEN model then
        Except.error (errorMessage (fileTokens.foldl (· + ·) 0) (MAX_TOKEN model))
      else Except.ok true := rfl

/-- Claim C2: validation fails exactly when the summed estimated token
counts strictly exceed the budget (a sum exactly equal to the budget
passes), and the failure message names both the actual sum and the
limit (their decimal renderings occur in it, in this order). -/
theorem C2_validator (fileTokens : List Nat) (model : List Char) :
    ((∃ msg, validate fileTokens model = Except.error msg) ↔
      MAX_TOKEN model < fileTokens.foldl (· + ·) 0) ∧
    (fileTokens.foldl (· + ·) 0 = MAX_TOKEN model →
      validate fileTokens model = Except.ok true) ∧
    (∀ msg, validate fileTokens model = Except.error msg →
      ∃ a b c, msg = a ++ (Nat.repr (fileTokens.foldl (· + ·) 0)).data ++ b ++
        (Nat.repr (MAX_TOKEN model)).data ++ c) := by
  rw [validate_spec]
  by_cases hgt : fileTokens.foldl (· + ·) 0 > MAX_TOKEN model
  · rw [if_pos hgt]
    refine ⟨⟨fun _ => hgt, fun _ => ⟨_, rfl⟩⟩, fun heq => ?_, fun msg hmsg => ?_⟩
    · omega
    · obtain rfl : errorMessage (fileTokens.foldl (· + ·) 0) (MAX_TOKEN model) = msg := by
        simpa using hmsg
      refine ⟨"You selected files with a sum of ".data,
        " tokens. The maximum is ".data, ". Please select fewer files.".data, ?_⟩
      simp [errorMessage, List.append_assoc]
  · rw [if_neg hgt]
    refine ⟨⟨fun ⟨msg, hmsg⟩ => by simp at hmsg, fun h => absurd h hgt⟩,
      fun _ => rfl, fun msg hmsg => by simp at hmsg⟩

/-- Witness for C2: selecting 3000 + 2000 tokens against the default
4000-token budget of `"gpt-3.5-turbo"` fails, naming 5000 and 4000. -/
theorem C2_validator_witness :
    validate [3000, 2000] ("gpt-3.5-turbo".data) =
      Except.error (errorMessage 5000 4000) ∧
    (∃ a b c, errorMessage 5000 4000 = a ++ (Nat.repr 5000).data ++ b ++
      (Nat.repr 4000).data ++ c) := by
  refine ⟨rfl, ?_⟩
  exact (C2_validator [3000, 2000] ("gpt-3.5-turbo".data)).2.2
    (errorMessage 5000 4000) rfl

/-- Counterexample to claim C4 as stated: a criteria whose extension list
is present but empty (`some []`, i.e. a supplied empty array) and whose
substring list is absent is "both empty or absent", yet the file `a.js`
does not pass: a present empty array is truthy in JavaScript and
`[].some(...)` is `false`, so every file is skipped. -/
theorem C4_counterexample :
    choicesFilter { filter := none, ext := some [] } ("a.js".data) = false := by
  decide

/-- Claim C4 (amended): when both criteria fields are absent
(`undefined`), every enumerated file passes the filter. -/
theorem C4_match_all (f : List Char) :
    choicesFilter { filter := none, ext := none } f = true := rfl

/-- Claim C9: an explicitly supplied `0` for temperature or for max output
tokens is replaced by the defaults 0.8 and 400, because the `||` merge
treats any falsy value as unset. -/
theorem C9_zero_is_default :
    optionsTemperature (some 0) = 0.8 ∧ optionsMaxTokens (some 0) = 400 := by
  constructor <;> norm_num [optionsTemperature, optionsMaxTokens, jsOrNum]

lemma jsTrimEnd_fence (a : List Char) :
    jsTrimEnd (a ++ ('\n' :: '`' :: '`' :: '`' :: '\n' :: [])) =
      a ++ ('\n' :: '`' :: '`' :: '`' :: []) := by
  have h1 : jsWhitespace '\n' = true := by decide
  have h2 : jsWhitespace '`' = false := by decide
  simp [jsTrimEnd, List.reverse_append, List.dropWhile_cons, h1, h2]

lemma jsTrim_file_message (r c : List Char) :
    jsTrim ("Filename: ".data ++ r ++ "\n\n```\n".data ++ c ++ "\n```\n".data) =
      "Filename: ".data ++ r ++ "\n\n```\n".data ++ c ++ "\n```".data := by
  have hF : "Filename: ".data = 'F' :: "ilename: ".data := by decide
  have hD : "\n```\n".data = '\n' :: '`' :: '`' :: '`' :: '\n' :: [] := by decide
  have hC : "\n```".data = '\n' :: '`' :: '`' :: '`' :: [] := by decide
  have hstart : jsTrimStart ("Filename: ".data ++ r ++ "\n\n```\n".data ++ c ++
      "\n```\n".data) =
      "Filename: ".data ++ r ++ "\n\n```\n".data ++ c ++ "\n```\n".data := by
    rw [hF]
    simp only [List.cons_append, jsTrimStart, List.dropWhile_cons,
      (by decide : jsWhitespace 'F' = false)]
    simp
  rw [jsTrim, hstart, hD, hC]
  have := jsTrimEnd_fence ("Filename: ".data ++ r ++ "\n\n```\n".data ++ c)
  simpa [List.append_assoc] using this

/-- Claim C3: for every (non-empty) ordered selection, the assembled
conversation is exactly one system message, then one user message holding
the trimmed prompt, then one user message per selected file in selection
order, each of the form `Filename: <relative path>`, blank line, then the
raw file content between code fences — the content bytes inside the fence
appearing unaltered. -/
theorem C3_prompt_assembler (prompt : List Char)
    (files : List (List Char × List Char)) (_hne : files ≠ []) :
    messages prompt files =
      { role := Role.system,
        content := "You are an experienced software engineer with computer science background. You are great at explaining code to others.".data } ::
      { role := Role.user, content := jsTrim prompt } ::
      files.map (fun fc =>
        { role := Role.user,
          content := "Filename: ".data ++ fc.1 ++ "\n\n```\n".data ++ fc.2 ++
            "\n```".data }) := by
  have hsys : jsTrim systemTemplate =
      "You are an experienced software engineer with computer science background. You are great at explaining code to others.".data := by
    decide
  have hfun : (fun fc : List Char × List Char => fileContentToMessage fc.1 fc.2) =
      (fun fc : List Char × List Char =>
        ({ role := Role.user,
           content := "Filename: ".data ++ fc.1 ++ "\n\n```\n".data ++ fc.2 ++
             "\n```".data } : Message)) := by
    funext fc
    unfold fileContentToMessage
    rw [jsTrim_file_message]
  rw [messages, hsys, hfun]

/-- Witness for C3 on a one-file selection. -/
theorem C3_prompt_assembler_witness :
    ([(("a.js".data : List Char), ("let x = 1;\n".data : List Char))] ≠ []) ∧
    messages ("Explain".data) [("a.js".data, "let x = 1;\n".data)] =
      { role := Role.system,
        content := "You are an experienced software engineer with computer science background. You are great at explaining code to others.".data } ::
      { role := Role.user, content := jsTrim ("Explain".data) } ::
      [(("a.js".data : List Char), ("let x = 1;\n".data : List Char))].map (fun fc =>
        { role := Role.user,
          content := "Filename: ".data ++ fc.1 ++ "\n\n```\n".data ++ fc.2 ++
            "\n```".data }) :=
  ⟨by decide, C3_prompt_assembler ("Explain".data)
    [("a.js".data, "let x = 1;\n".data)] (by decide)⟩

lemma getFiles_sound_aux (k : Nat) :
    ∀ (entries : List FsEntry), sizeOf entries ≤ k →
      ∀ p ∈ getFiles entries, p ∈ filePaths entries ∧
        ∀ seg ∈ p, seg ∉ COMMON_JUNK_DIRS := by
  induction k with
  | zero =>
    intro entries hk
    cases entries <;> simp_all
  | succ k ih =>
    intro entries hk p hp
    cases entries with
    | nil => simp [getFiles] at hp
    | cons e rest =>
      rw [getFiles, List.mem_append] at hp
      have hrest : sizeOf rest ≤ k := by
        cases e <;> simp_all <;> omega
      rcases hp with hp | hp
      · cases e with
        | file n =>
          rw [getFilesEntry] at hp
          by_cases hj : n ∈ COMMON_JUNK_DIRS
          · rw [if_pos hj] at hp
            simp at hp
          · rw [if_neg hj] at hp
            simp only [List.mem_singleton] at hp
            subst hp
            refine ⟨by simp [filePaths, filePathsEntry], ?_⟩
            intro seg hseg
            simp only [List.mem_singleton] at hseg
            subst hseg
            exact hj
        | dir n children =>
          rw [getFilesEntry] at hp
          by_cases hj : n ∈ COMMON_JUNK_DIRS
          · rw [if_pos hj] at hp
            simp at hp
          · rw [if_neg hj] at hp
            simp only [List.mem_map] at hp
            obtain ⟨q, hq, rfl⟩ := hp
            have hchild : sizeOf children ≤ k := by
              simp_all
              omega
            obtain ⟨hq1, hq2⟩ := ih children hchild q hq
            refine ⟨?_, ?_⟩
            · rw [filePaths, List.mem_append]
              exact Or.inl (by
                rw [filePathsEntry]
                exact List.mem_map_of_mem _ hq1)
            · intro seg hseg
              rcases List.mem_cons.mp hseg with rfl | hseg
              · exact hj
              · exact hq2 seg hseg
      · obtain ⟨h1, h2⟩ := ih rest hrest p hp
        exact ⟨by rw [filePaths, List.mem_append]; exact Or.inr h1, h2⟩

/-- Claim C5: every path the File Enumerator yields denotes a file of the
tree (never a directory), and none of its name segments along the
traversal — its own name or any ancestor directory below the root — is in
the fixed exclusion set. -/
theorem C5_enumerator (entries : List FsEntry) (p : List (List Char))
    (hp : p ∈ getFiles entries) :
    p ∈ filePaths entries ∧ ∀ seg ∈ p, seg ∉ COMMON_JUNK_DIRS :=
  getFiles_sound_aux (sizeOf entries) entries le_rfl p hp

/-- Witness for C5 on a small tree containing junk directories. -/
theorem C5_enumerator_witness :
    (["src".data, "a.js".data] ∈ getFiles
      [FsEntry.dir ("src".data) [FsEntry.file ("a.js".data)],
       FsEntry.dir ("dist".data) [FsEntry.file ("b.js".data)]]) ∧
    (["src".data, "a.js".data] ∈ filePaths
      [FsEntry.dir ("src".data) [FsEntry.file ("a.js".data)],
       FsEntry.dir ("dist".data) [FsEntry.file ("b.js".data)]] ∧
     ∀ seg ∈ [("src".data : List Char), "a.js".data],
       seg ∉ COMMON_JUNK_DIRS) :=
  ⟨by decide, C5_enumerator
    [FsEntry.dir ("src".data) [FsEntry.file ("a.js".data)],
     FsEntry.dir ("dist".data) [FsEntry.file ("b.js".data)]]
    ["src".data, "a.js".data] (by decide)⟩

/-- Claim C10: a regular file whose own name is one of the exclusion-set
entries is never yielded: the junk-name check runs before the entry's kind
is examined, so `getFilesEntry` on such a file yields nothing, and no
yielded path ends in an excluded name. -/
theorem C10_junk_named_file (entries : List FsEntry) :
    (∀ n ∈ COMMON_JUNK_DIRS, getFilesEntry (FsEntry.file n) = []) ∧
    (∀ p ∈ getFiles entries, ∀ n, p.getLast? = some n →
      n ∉ COMMON_JUNK_DIRS) := by
  refine ⟨fun n hn => by rw [getFilesEntry, if_pos hn], fun p hp n hlast => ?_⟩
  have hmem : n ∈ p := by
    cases p with
    | nil => simp at hlast
    | cons a q =>
      have := List.getLast?_eq_getLast (a :: q) (by simp)
      rw [this] at hlast
      simp only [Option.some.injEq] at hlast
      subst hlast
      exact List.getLast_mem _
  exact (getFiles_sound_aux (sizeOf entries) entries le_rfl p hp).2 n hmem

/-- Witness for C10 on a tree holding a plain file named `dist`. -/
theorem C10_junk_named_file_witness :
    (getFilesEntry (FsEntry.file ("dist".data)) = []) ∧
    ("a.js".data : List Char) ∉ COMMON_JUNK_DIRS :=
  ⟨(C10_junk_named_file []).1 ("dist".data) (by decide),
   (C10_junk_named_file [FsEntry.file ("dist".data), FsEntry.file ("a.js".data)]).2
     ["a.js".data] (by decide) ("a.js".data) (by decide)⟩

lemma processChunk_err (st : ProcState) (h : st.exited = none) (m : List Char) :
    processChunk st (Chunk.err m) =
      { out := st.out ++ [consoleLog [], consoleLog (chalkText ("OpenAI error:".data)),
          consoleLog [], consoleLog m],
        exited := some 1 } := by
  unfold processChunk
  rw [h]

lemma processChunk_exited (st : ProcState) (c : Chunk) (h : st.exited.isSome) :
    processChunk st c = st := by
  unfold processChunk
  cases hx : st.exited with
  | none => rw [hx] at h; simp at h
  | some k => rfl

lemma foldl_exited (chunks : List Chunk) (st : ProcState) (h : st.exited.isSome) :
    chunks.foldl processChunk st = st := by
  induction chunks with
  | nil => rfl
  | cons c rest ih =>
    rw [List.foldl_cons, processChunk_exited st c h]
    exact ih

lemma processChunk_data_exited (st : ProcState) (h : st.exited = none)
    (d t f : Option (List Char)) :
    (processChunk st (Chunk.data d t f)).exited = none := by
  unfold processChunk
  rw [h]
  by_cases ht : jsTruthyStr f
  · simp only [ht, if_pos]
  · simp only [ht]
    simp

lemma foldl_no_err_exited (chunks : List Chunk)
    (h : ∀ c ∈ chunks, isErr c = false) :
    ∀ st : ProcState, st.exited = none →
      (chunks.foldl processChunk st).exited = none := by
  induction chunks with
  | nil => intro st hst; exact hst
  | cons c rest ih =>
    intro st hst
    rw [List.foldl_cons]
    cases c with
    | err m => exact absurd (h _ (List.mem_cons_self _ _)) (by simp [isErr])
    | data d t f =>
      exact ih (fun x hx => h x (List.mem_cons_of_mem _ hx)) _
        (processChunk_data_exited st hst d t f)

/-- Claim C6: when the streamer reaches a chunk carrying an error payload
(no earlier chunk was an error, so the process is still alive), it prints
the error message, exits with code 1, and the remainder of the stream
produces no further output: the final state is exactly the state after the
error chunk. -/
theorem C6_error_chunk (pre post : List Chunk) (m : List Char)
    (hpre : ∀ c ∈ pre, isErr c = false) :
    runStream (pre ++ Chunk.err m :: post) = runStream (pre ++ [Chunk.err m]) ∧
    (runStream (pre ++ Chunk.err m :: post)).exited = some 1 ∧
    consoleLog m ∈ (runStream (pre ++ Chunk.err m :: post)).out := by
  have hrun : (List.foldl processChunk initState pre).exited = none :=
    foldl_no_err_exited pre hpre initState rfl
  have hstep : processChunk (List.foldl processChunk initState pre) (Chunk.err m) =
      { out := (List.foldl processChunk initState pre).out ++
          [consoleLog [], consoleLog (chalkText ("OpenAI error:".data)),
            consoleLog [], consoleLog m],
        exited := some 1 } :=
    processChunk_err _ hrun m
  have hfull : runStream (pre ++ Chunk.err m :: post) =
      processChunk (List.foldl processChunk initState pre) (Chunk.err m) := by
    unfold runStream
    rw [List.foldl_append, List.foldl_cons]
    exact foldl_exited post _ (by rw [hstep]; rfl)
  have hshort : runStream (pre ++ [Chunk.err m]) =
      processChunk (List.foldl processChunk initState pre) (Chunk.err m) := by
    unfold runStream
    rw [List.foldl_append, List.foldl_cons, List.foldl_nil]
  refine ⟨hfull.trans hshort.symm, ?_, ?_⟩
  · rw [hfull, hstep]
  · rw [hfull, hstep]
    simp

/-- Witness for C6 at the spec's `rate limited` example, with a trailing
chunk after the error. -/
theorem C6_error_chunk_witness :
    runStream ([] ++ Chunk.err ("rate limited".data) ::
        [Chunk.data (some ("x".data)) none none]) =
      runStream ([] ++ [Chunk.err ("rate limited".data)]) ∧
    (runStream ([] ++ Chunk.err ("rate limited".data) ::
        [Chunk.data (some ("x".data)) none none])).exited = some 1 ∧
    consoleLog ("rate limited".data) ∈
      (runStream ([] ++ Chunk.err ("rate limited".data) ::
        [Chunk.data (some ("x".data)) none none])).out :=
  C6_error_chunk [] [Chunk.data (some ("x".data)) none none]
    ("rate limited".data) (by simp)

/-- Counterexample to claim C7 as stated: the trailing newline is written
inside `if (finishReason)`, so a stream whose final chunk carries a null
finish reason ends with no trailing newline at all — here the whole
emitted output is exactly `hi`, with no `'\n'` anywhere. -/
theorem C7_counterexample :
    (runStream [Chunk.data (some ('h' :: 'i' :: [])) none none]).out.flatten =
      'h' :: 'i' :: [] ∧
    '\n' ∉ (runStream [Chunk.data (some ('h' :: 'i' :: [])) none none]).out.flatten := by
  decide

lemma processChunk_data_some (st : ProcState) (h : st.exited = none)
    (d t : Option (List Char)) (r : List Char) (hr : r ≠ []) :
    processChunk st (Chunk.data d t (some r)) =
      { out := (st.out ++ [d.getD (t.getD [])] ++
          (if r = "stop".data then []
           else [consoleLog [],
             consoleLog (chalkText ("OpenAI stopped early, reason: ".data ++ r))])) ++
          [['\n']],
        exited := none } := by
  have htr : jsTruthyStr (some r) = true := by
    cases r with
    | nil => exact absurd rfl hr
    | cons a l => rfl
  unfold processChunk
  rw [h]
  simp only [htr, if_true]
  by_cases hs : r = "stop".data
  · simp [hs]
  · simp [hs]

/-- Claim C7 (amended): when a chunk carries a non-empty finish reason and
the process is still alive, the chunk's extracted text is written, a
warning naming the reason is additionally printed exactly when the reason
is not `stop`, and a trailing newline is written after it in either case.
(The original claim's "in all cases, after the final chunk of the stream"
fails when the final chunk carries no finish reason, see the
counterexample.) -/
theorem C7_finish_reason (pre : List Chunk) (d t : Option (List Char))
    (r : List Char) (hr : r ≠ []) (hpre : (runStream pre).exited = none) :
    (processChunk (runStream pre) (Chunk.data d t (some r))).out =
      ((runStream pre).out ++ [d.getD (t.getD [])] ++
        (if r = "stop".data then []
         else [consoleLog [],
           consoleLog (chalkText ("OpenAI stopped early, reason: ".data ++ r))])) ++
      [['\n']] := by
  rw [processChunk_data_some (runStream pre) hpre d t r hr]

/-- Witness for C7 at the spec's `length` example. -/
theorem C7_finish_reason_witness :
    (("length".data : List Char) ≠ []) ∧
    (processChunk (runStream []) (Chunk.data (some ("x".data)) none
        (some ("length".data)))).out =
      ((runStream []).out ++ ["x".data] ++
        [consoleLog [],
         consoleLog (chalkText ("OpenAI stopped early, reason: ".data ++
           "length".data))]) ++ [['\n']] := by
  refine ⟨by decide, ?_⟩
  have h := C7_finish_reason [] (some ("x".data)) none ("length".data)
    (by decide) rfl
  rw [h]
  decide

lemma processChunk_data_none (st : ProcState) (h : st.exited = none)
    (d t : Option (List Char)) :
    processChunk st (Chunk.data d t none) =
      { out := st.out ++ [d.getD (t.getD [])], exited := none } := by
  unfold processChunk
  rw [h]
  rfl

lemma runStream_data_only (pieces : List (Option (List Char) × Option (List Char))) :
    ∀ st : ProcState, st.exited = none →
      (List.foldl processChunk st
          (pieces.map (fun pc => Chunk.data pc.1 pc.2 none))).out =
        st.out ++ pieces.map (fun pc => pc.1.getD (pc.2.getD [])) := by
  induction pieces with
  | nil => intro st _; simp
  | cons pc rest ih =>
    intro st hst
    rw [List.map_cons, List.foldl_cons, processChunk_data_none st hst pc.1 pc.2]
    rw [ih { out := st.out ++ [pc.1.getD (pc.2.getD [])], exited := none } rfl]
    simp

/-- Claim C8: each data chunk's emitted text is the delta-style field when
present, else the legacy text field, else the empty string, written in
arrival order; and on the spec's synthetic stream the concatenated output
is `Hello world` followed by a trailing newline, with exit code 0. -/
theorem C8_stream_text
    (pieces : List (Option (List Char) × Option (List Char))) :
    (runStream (pieces.map (fun pc => Chunk.data pc.1 pc.2 none))).out =
      pieces.map (fun pc => pc.1.getD (pc.2.getD [])) ∧
    (runStream helloStream).out.flatten = "Hello world\n".data ∧
    exitCode (runStream helloStream) = 0 := by
  refine ⟨?_, by decide, by decide⟩
  have h := runStream_data_only pieces initState rfl
  simpa [runStream, initState] using h

end Explain
